import Mathlib

/-!
Verification development for the `windows_fresh_setup` repository.

The repository is a Windows desktop utility (`src/main.py`, `src/scraper.py`,
`src/ui.py`) that concurrently walks user directories, filters the discovered
files by scan category and exclusion rules, and writes the filtered list to a
result file.

This file shallowly embeds the path-classification functions of `main.py`
(`is_ignored_file`, `get_files_by_scan_mode`, `is_downloads`,
`has_skip_folder`, `apply_additional_filters`, `save_results` / `run_scraper`
orchestration) and the concurrent directory walker of `scraper.py`
(`FileScraper.scan_all_files`), and proves the specification's claims about
them.

Python strings are embedded as Lean `String`s, manipulated through their
underlying `List Char`; `str.lower()` is modelled on the ASCII range (the
paths in all concrete examples are ASCII).  `os.path` functions follow the
`ntpath` (Windows) implementations, since the program imports `winreg` and
runs on Windows: the path separator is `'\'` and `'/'` is the alternative
separator.
-/

namespace WinSetup

/-- The Windows path separator, `os.path.sep` (ntpath). -/
def sep : Char := '\\'

/-- ASCII model of Python `str.lower()` applied to one character. -/
def lowerChar (c : Char) : Char :=
  if 'A' ≤ c ∧ c ≤ 'Z' then Char.ofNat (c.toNat + 32) else c

/-- `chPre pre s`: the char list `s` starts with `pre` (Python `str.startswith`). -/
def chPre : List Char → List Char → Bool
  | [], _ => true
  | _ :: _, [] => false
  | a :: pre, b :: s => a == b && chPre pre s

/-- `chSub sub s`: `sub` occurs as a contiguous substring of `s` (Python `in`). -/
def chSub (sub : List Char) : List Char → Bool
  | [] => chPre sub []
  | c :: s => chPre sub (c :: s) || chSub sub s

/-- Python `str.lower()` (ASCII model). -/
def pyLower (s : String) : String := ⟨s.data.map lowerChar⟩

/-- Python `s.startswith(pre)`. -/
def pyStartsWith (s pre : String) : Bool := chPre pre.data s.data

/-- Python `s.endswith(suf)`. -/
def pyEndsWith (s suf : String) : Bool := chPre suf.data.reverse s.data.reverse

/-- Python `sub in s` (substring test). -/
def pyIn (sub s : String) : Bool := chSub sub.data s.data

/-- Python `s.split(sep)` on char lists: split at every separator, keeping
empty pieces; `[]` splits to `[[]]`, as `"".split(sep) == ['']`. -/
def splitSep : List Char → List (List Char)
  | [] => [[]]
  | c :: rest =>
    if c = sep then [] :: splitSep rest
    else
      match splitSep rest with
      | [] => [[c]]
      | h :: t => (c :: h) :: t

/-- `splitSep` never returns the empty list of pieces. -/
theorem splitSep_ne_nil (l : List Char) : splitSep l ≠ [] := by
  cases l with
  | nil => simp [splitSep]
  | cons c rest =>
    simp only [splitSep]
    split
    · simp
    · split <;> simp

/-- Split a char list at its first separator: `some (before, after)` with the
separator removed, `none` when no separator occurs. -/
def breakSep : List Char → Option (List Char × List Char)
  | [] => none
  | c :: rest =>
    if c = sep then some ([], rest)
    else (breakSep rest).map (fun p => (c :: p.1, p.2))

/-- `ntpath.splitdrive` on a char list whose `'/'` have already been replaced
by `'\'` (as `ntpath.normpath` does before calling it).  Handles drive letters
(`C:`) and UNC roots (`\\server\share`). -/
def splitdrive (p : List Char) : List Char × List Char :=
  match p with
  | c₁ :: c₂ :: rest =>
    if c₁ = sep && c₂ = sep && rest.head? != some sep then
      -- UNC path \\machine\mountpoint\dir: the drive is \\machine\mountpoint
      match breakSep rest with
      | none => ([], p)
      | some (server, rest2) =>
        match breakSep rest2 with
        | none => (p, [])
        | some (share, rest3) =>
          if share = [] then ([], p)
          else (sep :: sep :: server ++ sep :: share, sep :: rest3)
    else if c₂ = ':' then ([c₁, ':'], rest)
    else ([], p)
  | _ => ([], p)

/-- Strip all leading separators (Python `str.lstrip(sep)`). -/
def lstripSep : List Char → List Char
  | [] => []
  | c :: rest => if c = sep then lstripSep rest else c :: rest

/-- Replace the alternative separator `'/'` by `'\'`
(`path.replace(altsep, sep)`). -/
def replaceAlt (l : List Char) : List Char :=
  l.map (fun c => if c = '/' then sep else c)

/-- `ntpath.normpath` starts by returning paths with a `\\.\` or `\\?\`
prefix unchanged. -/
def specialPrefix (p : List Char) : Bool :=
  chPre ['\\', '\\', '.', '\\'] p || chPre ['\\', '\\', '?', '\\'] p

/-- The component-normalisation loop of `ntpath.normpath`: drop empty and `.`
components, resolve `..` against a preceding component, drop a leading `..`
when the path is rooted (`prefix` ends with the separator), keep it otherwise. -/
def normSegs (rooted : Bool) (comps : List (List Char)) : List (List Char) :=
  comps.foldl (fun acc c =>
    if c = [] ∨ c = ['.'] then acc
    else if c = ['.', '.'] then
      match acc.getLast? with
      | some l => if l = ['.', '.'] then acc ++ [c] else acc.dropLast
      | none => if rooted then acc else [c]
    else acc ++ [c]) []

/-- Join components with single separators (`sep.join(comps)`). -/
def joinSep : List (List Char) → List Char
  | [] => []
  | [x] => x
  | x :: xs => x ++ sep :: joinSep xs

/-- `os.path.normpath` (ntpath) on char lists. -/
def normpathL (p : List Char) : List Char :=
  if specialPrefix p then p
  else
    let p1 := replaceAlt p
    let dr := splitdrive p1
    let pr := if dr.2.head? = some sep then (dr.1 ++ [sep], lstripSep dr.2) else (dr.1, dr.2)
    let comps := normSegs (pr.1.getLast? = some sep) (splitSep pr.2)
    let comps := if pr.1 = [] ∧ comps = [] then [['.']] else comps
    pr.1 ++ joinSep comps

/-- `os.path.normpath` on strings. -/
def normpath (s : String) : String := ⟨normpathL s.data⟩

/-- `normalized.split(os.path.sep)` on strings. -/
def splitPath (s : String) : List String := (splitSep s.data).map (⟨·⟩)

/-- `os.path.basename` (ntpath): the part of the path after the drive and the
last (either-flavour) separator. -/
def basename (p : String) : String :=
  let pl := replaceAlt p.data
  let dr := splitdrive pl
  ⟨(dr.2.reverse.takeWhile (fun c => c != sep)).reverse⟩

/-- Scan to the closing `]` of a glob character class: returns the class body
and the remainder of the pattern, or `none` when no `]` follows. -/
def findClose : List Char → Option (List Char × List Char)
  | [] => none
  | c :: rest =>
    if c = ']' then some ([], rest)
    else (findClose rest).map (fun p => (c :: p.1, p.2))

/-- `findClose` strictly shortens the pattern remainder. -/
theorem findClose_length {l b r : List Char} (h : findClose l = some (b, r)) :
    r.length < l.length := by
  induction l generalizing b r with
  | nil => simp [findClose] at h
  | cons c rest ih =>
    simp only [findClose] at h
    split at h
    · simp only [Option.some.injEq, Prod.mk.injEq] at h
      obtain ⟨-, hr⟩ := h
      simp [← hr]
    · cases hf : findClose rest with
      | none => rw [hf] at h; simp at h
      | some p =>
        rw [hf] at h
        simp only [Option.map_some', Option.some.injEq, Prod.mk.injEq] at h
        have hlt := ih (b := p.1) (r := p.2) hf
        rw [← h.2]
        simp only [List.length_cons]
        omega

/-- Parse a glob character class after the opening `[`, following
`fnmatch.translate`: an initial `!` negates; a `]` right after the optional
`!` belongs to the body; the body ends at the next `]`.  Returns
`(negated, body, rest)`, or `none` when there is no closing `]` (in which case
`[` matches literally). -/
def parseClass (l : List Char) : Option (Bool × List Char × List Char) :=
  let neg := l.head? == some '!'
  let l1 := if neg then l.tail else l
  let skip := l1.head? == some ']'
  let body0 : List Char := if skip then [']'] else []
  let l2 := if skip then l1.tail else l1
  (findClose l2).map (fun p => (neg, body0 ++ p.1, p.2))

/-- `parseClass` strictly shortens the pattern remainder. -/
theorem parseClass_length {l : List Char} {n : Bool} {b r : List Char}
    (h : parseClass l = some (n, b, r)) : r.length < l.length := by
  simp only [parseClass] at h
  set l1 := if l.head? == some '!' then l.tail else l with hl1
  set l2 := if l1.head? == some ']' then l1.tail else l1 with hl2
  cases hf : findClose l2 with
  | none => rw [hf] at h; simp at h
  | some p =>
    rw [hf] at h
    simp only [Option.map_some', Option.some.injEq, Prod.mk.injEq] at h
    have hlt := findClose_length (b := p.1) (r := p.2) hf
    have h21 : l2.length ≤ l1.length := by
      rw [hl2]; split <;> simp [List.length_tail]
    have h10 : l1.length ≤ l.length := by
      rw [hl1]; split <;> simp [List.length_tail]
    rw [← h.2.2]
    omega

/-- Membership of a character in a glob class body, with `a-z` ranges; a `-`
without both endpoints matches literally (regex class semantics as produced by
`fnmatch.translate`). -/
def memClass : List Char → Char → Bool
  | a :: '-' :: b :: rest, c => (a ≤ c && c ≤ b) || memClass rest c
  | a :: rest, c => (a == c) || memClass rest c
  | [], _ => false

/-- Fuel-driven shell-glob matcher (`fnmatch` semantics: `*`, `?`, `[...]`,
`[!...]`, other characters literal).  Each recursive call strictly decreases
`pattern.length + s.length`, so the fuel used by `globMatch` below is never
exhausted; the fuel only makes the recursion structural. -/
def globMatchFuel : Nat → List Char → List Char → Bool
  | 0, _, _ => false
  | fuel + 1, pat, s =>
    match pat, s with
    | [], s => s.isEmpty
    | '*' :: p, s =>
      globMatchFuel fuel p s ||
        (match s with
         | [] => false
         | _ :: s' => globMatchFuel fuel ('*' :: p) s')
    | '?' :: p, _ :: s' => globMatchFuel fuel p s'
    | '?' :: _, [] => false
    | '[' :: p, s =>
      (match parseClass p with
       | none =>
         match s with
         | c :: s' => (c == '[') && globMatchFuel fuel p s'
         | [] => false
       | some (neg, body, rest) =>
         match s with
         | c :: s' => (neg != memClass body c) && globMatchFuel fuel rest s'
         | [] => false)
    | a :: p, c :: s' => (a == c) && globMatchFuel fuel p s'
    | _ :: _, [] => false

/-- Shell-glob match of a pattern against a whole string (char lists). -/
def globMatch (pat s : List Char) : Bool :=
  globMatchFuel (pat.length + s.length + 1) pat s

/-- `fnmatch.fnmatchcase(name, pat)`: case-sensitive glob match, no
normalisation of either argument. -/
def fnmatchcase (name pat : String) : Bool := globMatch pat.data name.data

/-! ## The filter functions of `src/main.py` -/

/-- The fixed system-path prefixes of `is_ignored_file`. -/
def ignore_dirs : List String :=
  ["C:\\Windows", "C:\\Program Files", "C:\\Program Files (x86)",
   "C:\\ProgramData", "C:\\$Recycle.Bin", "C:\\msys64", "C:\\vcpkg"]

/-- `main.is_ignored_file(file_path, file_type)`: ignore files under a fixed
list of system prefixes (case-sensitive `startswith`), or whose lower-cased
path contains `"appdata"` or `"$recycle.bin"`.  The `file_type` argument is
accepted but never used, exactly as in the source. -/
def is_ignored_file (file_path : String) (file_type : String) : Bool :=
  let file_path_lower := pyLower file_path
  if ignore_dirs.any (fun ignore => pyStartsWith file_path ignore) then true
  else if pyIn "appdata" file_path_lower || pyIn "$recycle.bin" file_path_lower then true
  else false

/-- The `full` scan's extension list in `get_files_by_scan_mode`. -/
def desired_extensions : List String :=
  [".txt", ".asc", ".png", ".jpg", ".jpeg", ".gif", ".mp4", ".avi", ".mkv", ".mp3"]

/-- `main.get_files_by_scan_mode(all_files, scan_mode)`: keep the files whose
extension matches the scan mode.  The `text`, `image` and `video` branches
compare against `f.lower()`; the fall-through full-scan branch compares
against `f` unchanged, as in the source. -/
def get_files_by_scan_mode (all_files : List String) (scan_mode : String) : List String :=
  if scan_mode = "text" then
    all_files.filter (fun f => pyEndsWith (pyLower f) ".txt" || pyEndsWith (pyLower f) ".asc")
  else if scan_mode = "image" then
    all_files.filter (fun f =>
      [".png", ".jpg", ".jpeg", ".gif"].any (fun ext => pyEndsWith (pyLower f) ext))
  else if scan_mode = "video" then
    all_files.filter (fun f =>
      [".mp4", ".avi", ".mkv"].any (fun ext => pyEndsWith (pyLower f) ext))
  else
    all_files.filter (fun f => desired_extensions.any (fun ext => pyEndsWith f ext))

/-- The per-file predicate of `get_files_by_scan_mode`, factored out so that
the filter can be reasoned about pointwise. -/
def matchesCategory (f : String) (scan_mode : String) : Bool :=
  if scan_mode = "text" then
    pyEndsWith (pyLower f) ".txt" || pyEndsWith (pyLower f) ".asc"
  else if scan_mode = "image" then
    [".png", ".jpg", ".jpeg", ".gif"].any (fun ext => pyEndsWith (pyLower f) ext)
  else if scan_mode = "video" then
    [".mp4", ".avi", ".mkv"].any (fun ext => pyEndsWith (pyLower f) ext)
  else
    desired_extensions.any (fun ext => pyEndsWith f ext)

theorem get_files_eq_filter (all_files : List String) (scan_mode : String) :
    get_files_by_scan_mode all_files scan_mode =
      all_files.filter (fun f => matchesCategory f scan_mode) := by
  unfold get_files_by_scan_mode matchesCategory
  split_ifs <;> rfl

/-- `main.is_downloads(file_path)`: separator-delimited substring search for
`"downloads"` in the lower-cased normalised path. -/
def is_downloads (file_path : String) : Bool :=
  let normalized := pyLower (normpath file_path)
  pyIn "\\downloads\\" normalized

/-- `main.has_skip_folder(file_path, skip_patterns)`: split the normalised
path on the separator, drop the first component, and glob-match every later
component (lower-cased) against every non-empty pattern (lower-cased). -/
def has_skip_folder (file_path : String) (skip_patterns : List String) : Bool :=
  let parts := splitPath (normpath file_path)
  (parts.drop 1).any (fun part =>
    skip_patterns.any (fun pat =>
      pat ≠ "" && fnmatchcase (pyLower part) (pyLower pat)))

/-- The plain-data projection of the UI settings dictionary used by
`apply_additional_filters`: the configured skip patterns and the
ignore-downloads flag. -/
structure ScanSettings where
  skip_folders : List String
  ignore_downloads : Bool
deriving DecidableEq

/-- One record of the scan output: `{"path": f, "name": basename(f),
"type": scan_mode}`. -/
structure FileRecord where
  path : String
  name : String
  type : String
deriving DecidableEq

/-- `main.apply_additional_filters(files, scan_mode, settings)`: drop ignored
system paths, then (when the flag is set) downloads paths, then (when skip
patterns are configured) skip-pattern matches; each surviving file yields one
output record. -/
def apply_additional_filters : List String → String → ScanSettings → List FileRecord
  | [], _, _ => []
  | f :: rest, scan_mode, settings =>
    if is_ignored_file f scan_mode then
      apply_additional_filters rest scan_mode settings
    else if settings.ignore_downloads && is_downloads f then
      apply_additional_filters rest scan_mode settings
    else if !settings.skip_folders.isEmpty && has_skip_folder f settings.skip_folders then
      apply_additional_filters rest scan_mode settings
    else
      { path := f, name := basename f, type := scan_mode } ::
        apply_additional_filters rest scan_mode settings

/-! ## The scan orchestration of `main.run_scraper`

`run_scraper` reports to the UI only through `safe_update_status`,
`safe_update_progress` and the final `enable_backup_button` call; these are
the progress/status sink.  The sink calls are modelled as an event trace.
`save_results` is a bare `open`/`json.dump` with no exception handler, so a
write failure raises out of `run_scraper`; this is modelled by a `writeOk`
flag: when it is false, the trace stops at the point of the `save_results`
call and the run is marked aborted.  (Wall-clock timing in the final status
message is external and elided from the message text.) -/

/-- One call into the progress/status sink. -/
inductive SinkEvent where
  | status (msg : String)
  | progress (percent : Nat)
  | enableBackup (files : List FileRecord)
deriving DecidableEq

/-- The sequence of sink events emitted by `run_scraper` after the walker has
produced `all_files`, paired with whether the run aborted with an unhandled
exception from `save_results`. -/
def run_scraper_model (all_files : List String) (scan_mode : String)
    (settings : ScanSettings) (writeOk : Bool) : List SinkEvent × Bool :=
  let ev1 : List SinkEvent :=
    [.status "Preparing scan directories...", .progress 25]
  let files_to_scan := get_files_by_scan_mode all_files scan_mode
  let ev2 := ev1 ++
    [.status ("Found " ++ toString files_to_scan.length ++ " files for " ++
        scan_mode ++ " scan."),
     .progress 50]
  let filtered_files := apply_additional_filters files_to_scan scan_mode settings
  if writeOk then
    (ev2 ++ [.status (scan_mode ++ " scan complete"), .progress 100,
             .enableBackup filtered_files], false)
  else
    (ev2, true)

/-! ## The concurrent walker of `scraper.FileScraper.scan_all_files`

The filesystem is modelled as a finite rose tree: each directory carries the
paths of its regular files, its subdirectories, and whether listing it raises
`PermissionError` (the only error the worker catches).  The shared state of
the pool is the work queue (`pending`), the directories dequeued but whose
listing has not yet finished (`inFlight`, bounded by the pool size), and the
file list collected under the lock (`found`).  `Queue.join` returns when the
unfinished-task count is zero, i.e. when `pending` and `inFlight` are both
empty, since `task_done` runs in the worker's `finally`.  Thread scheduling
is modelled by the nondeterministic interleaving of `dequeue` and `complete`
steps; removal at an arbitrary queue position over-approximates every FIFO
interleaving. -/

/-- A directory tree: file paths, subdirectories, and whether `os.scandir` on
this directory raises `PermissionError`. -/
inductive FSTree where
  | node (files : List String) (denied : Bool) (subs : List FSTree)

/-- What the worker observes when it lists a directory: a denied directory
contributes no files and no subdirectories (the `except PermissionError`
branch), an accessible one contributes its entries. -/
def FSTree.listing : FSTree → List String × List FSTree
  | .node fs denied subs => if denied then ([], []) else (fs, subs)

mutual

/-- All regular-file paths in a tree, listing order. -/
def FSTree.allFiles : FSTree → List String
  | .node fs _ subs => fs ++ allFilesList subs

/-- All regular-file paths in a forest. -/
def allFilesList : List FSTree → List String
  | [] => []
  | t :: ts => t.allFiles ++ allFilesList ts

end

mutual

/-- The file paths reachable through accessible directories only: a denied
directory contributes nothing, including its whole subtree. -/
def FSTree.accessFiles : FSTree → List String
  | .node fs denied subs => if denied then [] else fs ++ accessFilesList subs

/-- Accessible file paths of a forest. -/
def accessFilesList : List FSTree → List String
  | [] => []
  | t :: ts => t.accessFiles ++ accessFilesList ts

end

mutual

/-- Every directory in the tree is readable (no `PermissionError` anywhere). -/
def FSTree.allReadable : FSTree → Bool
  | .node _ denied subs => !denied && allReadableList subs

/-- Every directory in the forest is readable. -/
def allReadableList : List FSTree → Bool
  | [] => true
  | t :: ts => t.allReadable && allReadableList ts

end

/-- The shared mutable state of one `scan_all_files` call. -/
structure WalkState where
  pending : List FSTree
  inFlight : List FSTree
  found : List String

/-- The state after seeding the queue with the roots, before any worker runs. -/
def WalkState.init (roots : List FSTree) : WalkState := ⟨roots, [], []⟩

/-- `Queue.join` returns exactly when no enqueued item is still pending and
no dequeued item is still being processed. -/
def WalkState.Terminal (s : WalkState) : Prop := s.pending = [] ∧ s.inFlight = []

/-- One scheduling step of the worker pool with `N` workers: a worker
dequeues a directory (possible only while fewer than `N` listings are in
flight), or a worker finishes listing an in-flight directory, appending the
observed files to the shared result and enqueueing the observed
subdirectories. -/
inductive WalkStep (N : Nat) : WalkState → WalkState → Prop
  | dequeue (p₁ p₂ inF : List FSTree) (t : FSTree) (found : List String) :
      inF.length < N →
      WalkStep N ⟨p₁ ++ t :: p₂, inF, found⟩ ⟨p₁ ++ p₂, t :: inF, found⟩
  | complete (pending i₁ i₂ : List FSTree) (t : FSTree) (found : List String) :
      WalkStep N ⟨pending, i₁ ++ t :: i₂, found⟩
        ⟨pending ++ t.listing.2, i₁ ++ i₂, found ++ t.listing.1⟩

theorem accessFilesList_append (a b : List FSTree) :
    accessFilesList (a ++ b) = accessFilesList a ++ accessFilesList b := by
  induction a with
  | nil => rfl
  | cons t ts ih => simp [accessFilesList, ih]

theorem listing_accessFiles (t : FSTree) :
    t.listing.1 ++ accessFilesList t.listing.2 = t.accessFiles := by
  cases t with
  | node fs denied subs =>
    cases denied <;> simp [FSTree.listing, FSTree.accessFiles, accessFilesList]

/-- The conserved quantity of the pool: the files already collected plus the
accessible files below every directory still pending or in flight. -/
def WalkState.holdings (s : WalkState) : Multiset String :=
  (s.found : Multiset String) + (accessFilesList s.pending : Multiset String) +
    (accessFilesList s.inFlight : Multiset String)

theorem holdings_step {N : Nat} {s s' : WalkState} (h : WalkStep N s s') :
    s'.holdings = s.holdings := by
  cases h with
  | dequeue p₁ p₂ inF t found hlt =>
    simp only [WalkState.holdings, accessFilesList_append, accessFilesList,
      ← Multiset.coe_add]
    abel
  | complete pending i₁ i₂ t found =>
    simp only [WalkState.holdings, accessFilesList_append, accessFilesList,
      ← listing_accessFiles t, ← Multiset.coe_add]
    abel

theorem holdings_reach {N : Nat} {s s' : WalkState}
    (h : Relation.ReflTransGen (WalkStep N) s s') : s'.holdings = s.holdings := by
  induction h with
  | refl => rfl
  | tail _ hstep ih => rw [holdings_step hstep, ih]

/-- Every terminating execution of the pool collects exactly (as a multiset)
the accessible files below the roots. -/
theorem walk_terminal_perm {N : Nat} {roots : List FSTree} {s : WalkState}
    (h : Relation.ReflTransGen (WalkStep N) (WalkState.init roots) s)
    (ht : s.Terminal) : s.found.Perm (accessFilesList roots) := by
  have hh := holdings_reach h
  obtain ⟨hp, hi⟩ := ht
  rw [Multiset.coe_eq_coe.symm]
  simpa [WalkState.holdings, WalkState.init, hp, hi, accessFilesList] using hh

mutual

theorem accessFiles_of_allReadable :
    ∀ t : FSTree, t.allReadable = true → t.accessFiles = t.allFiles
  | .node fs denied subs, h => by
    simp only [FSTree.allReadable, Bool.and_eq_true, Bool.not_eq_true'] at h
    simp [FSTree.accessFiles, FSTree.allFiles, h.1,
      accessFilesList_of_allReadableList subs h.2]

theorem accessFilesList_of_allReadableList :
    ∀ ts : List FSTree, allReadableList ts = true →
      accessFilesList ts = allFilesList ts
  | [], _ => rfl
  | t :: ts, h => by
    simp only [allReadableList, Bool.and_eq_true] at h
    simp [accessFilesList, allFilesList, accessFiles_of_allReadable t h.1,
      accessFilesList_of_allReadableList ts h.2]

end

/-- With at least one worker, a state that `Queue.join` would still block on
always has an enabled step: the pool cannot deadlock. -/
theorem walk_progress {N : Nat} (hN : 1 ≤ N) (s : WalkState)
    (hnt : ¬ s.Terminal) : ∃ s', WalkStep N s s' := by
  obtain ⟨pending, inFlight, found⟩ := s
  cases hi : inFlight with
  | cons t i₂ =>
    exact ⟨_, WalkStep.complete pending [] i₂ t found⟩
  | nil =>
    cases hp : pending with
    | nil => exact absurd ⟨hp, hi⟩ hnt
    | cons t p₂ =>
      exact ⟨_, WalkStep.dequeue [] p₂ [] t found (by simpa using hN)⟩

/-! ## Separator-delimited substring search versus path segments

`is_downloads` searches for the substring `sep ++ "downloads" ++ sep`; the
following lemmas characterise such a search, for any separator-free word, as
"some segment of the separator-split other than the first and the last equals
the word". -/

/-- A word followed by a separator is a prefix of `s` exactly when the first
separator-piece of `s` is that word and `s` has a further piece. -/
theorem chPre_word_sep {w : List Char} (hw : sep ∉ w) (s : List Char) :
    chPre (w ++ [sep]) s =
      (!(splitSep s).tail.isEmpty && ((splitSep s).headD [] == w)) := by
  induction w generalizing s with
  | nil =>
    cases s with
    | nil => simp [chPre, splitSep]
    | cons c s' =>
      by_cases hc : c = sep
      · subst hc
        simp [chPre, splitSep, List.isEmpty_iff, splitSep_ne_nil s']
      · cases hs : splitSep s' with
        | nil => exact absurd hs (splitSep_ne_nil s')
        | cons h t =>
          have hsplit : splitSep (c :: s') = (c :: h) :: t := by
            simp [splitSep, hc, hs]
          have hcs : (sep == c) = false := beq_eq_false_iff_ne.mpr (Ne.symm hc)
          have hn : (((c :: h) : List Char) == ([] : List Char)) = false := rfl
          simp [chPre, hsplit, hcs, hn]
  | cons a w' ih =>
    have ha : a ≠ sep := by simp only [List.mem_cons] at hw; tauto
    have hw' : sep ∉ w' := by simp only [List.mem_cons] at hw; tauto
    cases s with
    | nil => simp [chPre, splitSep]
    | cons c s' =>
      by_cases hc : c = sep
      · subst hc
        have has : (a == sep) = false := beq_eq_false_iff_ne.mpr ha
        have hsplit : splitSep (sep :: s') = [] :: splitSep s' := by
          simp [splitSep]
        have hnil : (([] : List Char) == (a :: w')) = false := rfl
        simp [chPre, hsplit, has, hnil]
      · cases hs : splitSep s' with
        | nil => exact absurd hs (splitSep_ne_nil s')
        | cons h t =>
          have hsplit : splitSep (c :: s') = (c :: h) :: t := by
            simp [splitSep, hc, hs]
          have hcons : (((c :: h) : List Char) == (a :: w')) =
              ((c == a) && (h == w')) := rfl
          have hih := ih hw' s'
          rw [hs] at hih
          have hswap : (c == a) = (a == c) := by
            by_cases hac : a = c
            · subst hac; rfl
            · rw [beq_eq_false_iff_ne.mpr hac,
                beq_eq_false_iff_ne.mpr (Ne.symm hac)]
          have lhs_eq : chPre ((a :: w') ++ [sep]) (c :: s') =
              ((a == c) && chPre (w' ++ [sep]) s') := rfl
          rw [lhs_eq, hih, hsplit]
          simp only [List.tail_cons, List.headD_cons, hcons, hswap]
          cases a == c <;> cases t.isEmpty <;> cases h == w' <;> rfl

/-- Searching for a separator-free word wrapped in separators finds exactly
the occurrences of the word as an interior piece of the separator-split. -/
theorem chSub_sep_word_sep {w : List Char} (hw : sep ∉ w) (s : List Char) :
    chSub (sep :: (w ++ [sep])) s =
      (((splitSep s).drop 1).dropLast.any (fun x => x == w)) := by
  induction s with
  | nil => simp [chSub, chPre, splitSep]
  | cons c s' ih =>
    have hstep : chSub (sep :: (w ++ [sep])) (c :: s') =
        (chPre (sep :: (w ++ [sep])) (c :: s') || chSub (sep :: (w ++ [sep])) s') :=
      rfl
    cases hs : splitSep s' with
    | nil => exact absurd hs (splitSep_ne_nil s')
    | cons h t =>
      rw [hs] at ih
      by_cases hc : c = sep
      · subst hc
        have hsplit : splitSep (sep :: s') = [] :: splitSep s' := by
          simp [splitSep]
        have hpre := chPre_word_sep hw s'
        rw [hs] at hpre
        rw [hstep, hsplit, hs]
        simp only [chPre, beq_self_eq_true, Bool.true_and, hpre, ih,
          List.drop_succ_cons, List.drop_zero, List.tail_cons, List.headD_cons]
        cases t with
        | nil => simp
        | cons t₀ t₁ =>
          simp [List.dropLast_cons₂]
      · have hsplit : splitSep (c :: s') = (c :: h) :: t := by
          simp [splitSep, hc, hs]
        have hcs : (sep == c) = false := beq_eq_false_iff_ne.mpr (Ne.symm hc)
        rw [hstep, hsplit]
        simp only [chPre, hcs, Bool.false_and, Bool.false_or, ih,
          List.drop_succ_cons, List.drop_zero]

/-! ## Spec-side predicates

The following definitions formalise the wording of the claims (rather than
the code), for comparison with the source-derived functions above. -/

/-- Claim side of C5 as stated: the lower-cased normalised path, split on the
separator, contains some segment equal to `"downloads"`.  (Lower-casing
touches only `A`–`Z`, so it neither creates nor destroys separators and
commutes with the split.) -/
def hasDownloadsSeg (p : String) : Bool :=
  (splitSep (pyLower (normpath p)).data).any (fun seg => seg == "downloads".data)

/-- Amended claim side of C5: some interior segment — one that is neither the
first nor the last piece of the separator-split, i.e. is both preceded and
followed by a separator — of the lower-cased normalised path equals
`"downloads"`. -/
def hasInteriorDownloadsSeg (p : String) : Bool :=
  (((splitSep (pyLower (normpath p)).data).drop 1).dropLast).any
    (fun seg => seg == "downloads".data)

/-- The components of the normalised path strictly after its root/drive
component: the drive as computed by `ntpath.splitdrive`, then any root
separator dropped. -/
def segsAfterRoot (p : String) : List String :=
  (splitSep (lstripSep (splitdrive (normpathL p.data)).2)).map (⟨·⟩)

/-- Claim side of C4 as stated: some path segment strictly after the
root/drive component of the normalised path matches some configured pattern,
case-insensitively, with shell-glob semantics. -/
def matchesSkipSpec (p : String) (pats : List String) : Bool :=
  (segsAfterRoot p).any (fun seg =>
    pats.any (fun pat => fnmatchcase (pyLower seg) (pyLower pat)))

/-- A normalised path of the ordinary absolute Windows form `X:\...`: a
non-separator drive letter, a colon, one root separator, and no second
separator immediately after. -/
def driveRooted (l : List Char) : Bool :=
  match l with
  | c₁ :: ':' :: c₃ :: rest => c₁ != sep && c₃ == sep && rest.head? != some sep
  | _ => false

/-- Spec-side retention predicate of the orchestrator (claim C2): category
extension match, not an ignored system path, downloads permitted or not in
downloads, and no skip-pattern match. -/
def retainedSpec (f : String) (scan_mode : String) (settings : ScanSettings) : Bool :=
  matchesCategory f scan_mode &&
  !is_ignored_file f scan_mode &&
  (!settings.ignore_downloads || !is_downloads f) &&
  !has_skip_folder f settings.skip_folders

/-! ## The worker's exception handling (`scraper.py`, lines 120-131) -/

/-- The errors `os.scandir` can raise when listing a directory. -/
inductive ScanError where
  | permissionError
  | fileNotFoundError
  | otherOSError
deriving DecidableEq

/-- The outcome of `os.scandir(current_dir)` inside the worker's `try`. -/
inductive ScandirResult where
  | ok (files : List String) (subdirs : List FSTree)
  | err (e : ScanError)

/-- What becomes of the worker after the `try`/`except PermissionError`/
`finally` block around one listing: a successful listing contributes its
entries and the loop continues; `PermissionError` is caught and the directory
contributes nothing; any other exception propagates (after the `finally`
runs `task_done`), terminating that worker's loop. -/
inductive WorkerFate where
  | continues (files : List String) (subdirs : List FSTree)
  | crashed (e : ScanError)

/-- The worker's `try`/`except PermissionError` around one directory listing. -/
def workerHandle : ScandirResult → WorkerFate
  | .ok fs ds => .continues fs ds
  | .err .permissionError => .continues [] []
  | .err e => .crashed e

/-! ## Further helper lemmas -/

theorem has_skip_folder_nil (f : String) : has_skip_folder f [] = false := by
  simp [has_skip_folder]

theorem lstripSep_no_sep {l : List Char} (h : l.head? ≠ some sep) :
    lstripSep l = l := by
  cases l with
  | nil => rfl
  | cons c rest =>
    have : c ≠ sep := by intro hc; exact h (by simp [hc])
    simp [lstripSep, this]

theorem any_nonempty_filter {pats : List String} (h : ∀ q ∈ pats, q ≠ "")
    (g : String → Bool) :
    (pats.any (fun pat => pat ≠ "" && g pat)) = pats.any g := by
  induction pats with
  | nil => rfl
  | cons q qs ih =>
    have hq : q ≠ "" := h q (by simp)
    simp only [List.any_cons, ih (fun r hr => h r (by simp [hr]))]
    simp [hq]

theorem apply_additional_filters_eq (files : List String) (scan_mode : String)
    (settings : ScanSettings) :
    apply_additional_filters files scan_mode settings =
      (files.filter (fun f =>
        !is_ignored_file f scan_mode &&
        !(settings.ignore_downloads && is_downloads f) &&
        !(!settings.skip_folders.isEmpty &&
            has_skip_folder f settings.skip_folders))).map
        (fun f => { path := f, name := basename f, type := scan_mode }) := by
  induction files with
  | nil => rfl
  | cons f rest ih =>
    simp only [apply_additional_filters, List.filter_cons]
    cases h1 : is_ignored_file f scan_mode with
    | true => simp [h1, ih]
    | false =>
      cases h2 : settings.ignore_downloads && is_downloads f with
      | true => simp [h1, h2, ih]
      | false =>
        cases h3 : !settings.skip_folders.isEmpty &&
            has_skip_folder f settings.skip_folders with
        | true => simp [h1, h2, h3, ih]
        | false => simp [h1, h2, h3, ih]

/-! ## Claim theorems -/

/-- C10: `is_ignored_file` never inspects its `file_type` argument, so the
ignored-system-path decision is identical for any two scan-category values. -/
theorem is_ignored_file_type_independent (p t₁ t₂ : String) :
    is_ignored_file p t₁ = is_ignored_file p t₂ := rfl

/-- C9: any `scan_mode` other than `"text"`, `"image"` and `"video"` takes
the fall-through branch of `get_files_by_scan_mode` and is filtered exactly
like a `"full"` scan; unrecognised categories are not rejected. -/
theorem unknown_scan_mode_is_full (files : List String) (scan_mode : String)
    (h₁ : scan_mode ≠ "text") (h₂ : scan_mode ≠ "image")
    (h₃ : scan_mode ≠ "video") :
    get_files_by_scan_mode files scan_mode =
      get_files_by_scan_mode files "full" := by
  unfold get_files_by_scan_mode
  simp [h₁, h₂, h₃]

/-- Witness for C9 at the unrecognised category `"backup"`. -/
theorem unknown_scan_mode_is_full_witness :
    ("backup" : String) ≠ "text" ∧ ("backup" : String) ≠ "image" ∧
      ("backup" : String) ≠ "video" ∧
      get_files_by_scan_mode ["a.txt", "b.xyz"] "backup" =
        get_files_by_scan_mode ["a.txt", "b.xyz"] "full" :=
  ⟨by decide, by decide, by decide,
    unknown_scan_mode_is_full ["a.txt", "b.xyz"] "backup"
      (by decide) (by decide) (by decide)⟩

/-- C3 counterexample: `"a.TXT"` differs from the allowed `.txt` only in
letter case; the `text` category retains it, but the `full` category drops
it, because the full-scan branch of `get_files_by_scan_mode` compares
extensions against `f` without lower-casing.  This refutes the claim that
extension matching is case-insensitive in every category including `full`. -/
theorem full_scan_case_counterexample :
    get_files_by_scan_mode ["a.TXT"] "text" = ["a.TXT"] ∧
      get_files_by_scan_mode ["a.TXT"] "full" = [] := by
  exact ⟨by decide, by decide⟩

/-- C3 amended: for the `text`, `image` and `video` categories the extension
test depends only on the lower-cased path — matching is case-insensitive —
while the `full` category matches its extension list case-sensitively, so a
path whose extension differs only in letter case from an allowed extension is
retained by `text`/`image`/`video` but not by `full`. -/
theorem category_matching_case_amended :
    (∀ f g : String, pyLower f = pyLower g →
      (matchesCategory f "text" = matchesCategory g "text" ∧
       matchesCategory f "image" = matchesCategory g "image" ∧
       matchesCategory f "video" = matchesCategory g "video")) ∧
    matchesCategory "a.txt" "full" = true ∧
    matchesCategory "a.TXT" "full" = false ∧
    matchesCategory "a.TXT" "text" = true := by
  refine ⟨fun f g h => ⟨?_, ?_, ?_⟩, by decide, by decide, by decide⟩ <;>
    · simp only [matchesCategory]
      norm_num
      rw [h]

/-- Witness for C3's amended claim at a pair of paths differing in case. -/
theorem category_matching_case_amended_witness :
    pyLower "x.PNG" = pyLower "x.png" ∧
      matchesCategory "x.PNG" "image" = matchesCategory "x.png" "image" :=
  ⟨by decide, (category_matching_case_amended.1 "x.PNG" "x.png" (by decide)).2.1⟩

/-- C2: the orchestrator's composed filtering
(`get_files_by_scan_mode` then `apply_additional_filters`) retains a file
exactly when it matches the category extension set, is not an ignored system
path, is allowed by the downloads flag, and matches no configured skip
pattern; each retained file yields exactly one `{path, name, type}` record. -/
theorem orchestrator_retention (files : List String) (scan_mode : String)
    (settings : ScanSettings) :
    apply_additional_filters (get_files_by_scan_mode files scan_mode)
        scan_mode settings =
      (files.filter (fun f => retainedSpec f scan_mode settings)).map
        (fun f => { path := f, name := basename f, type := scan_mode }) := by
  rw [get_files_eq_filter, apply_additional_filters_eq, List.filter_filter]
  congr 1
  apply List.filter_congr
  intro f _
  unfold retainedSpec
  cases he : settings.skip_folders.isEmpty with
  | true =>
    rw [List.isEmpty_iff.mp he, has_skip_folder_nil]
    cases matchesCategory f scan_mode <;>
      cases is_ignored_file f scan_mode <;>
        cases settings.ignore_downloads <;> cases is_downloads f <;> rfl
  | false =>
    cases matchesCategory f scan_mode <;>
      cases is_ignored_file f scan_mode <;>
        cases settings.ignore_downloads <;> cases is_downloads f <;>
          cases has_skip_folder f settings.skip_folders <;> rfl

/-- C5 counterexample: in `"C:\\Users\\bob\\downloads"` the final path
segment equals `"downloads"`, so the claim's reading — some segment of the
normalised path equals `"downloads"` case-insensitively — holds; yet
`is_downloads` returns false, because its separator-delimited substring
search also requires a separator after the segment.  This refutes the
claimed equivalence at a concrete input. -/
theorem is_downloads_counterexample :
    is_downloads "C:\\Users\\bob\\downloads" = false ∧
      hasDownloadsSeg "C:\\Users\\bob\\downloads" = true :=
  ⟨by decide, by decide⟩

/-- C5 amended: `is_downloads` is true exactly when some interior segment of
the lower-cased normalised path — one both preceded and followed by a
separator, hence neither the leading root/drive piece nor the final
component — equals `"downloads"`; the claim's two concrete examples hold. -/
theorem is_downloads_amended :
    (∀ p : String, is_downloads p = hasInteriorDownloadsSeg p) ∧
    is_downloads "C:\\Users\\bob\\Downloads\\f.txt" = true ∧
    is_downloads "C:\\Users\\bob\\Downloadsx\\f.txt" = false := by
  refine ⟨fun p => ?_, by decide, by decide⟩
  have hw : sep ∉ "downloads".data := by decide
  have h := chSub_sep_word_sep hw (pyLower (normpath p)).data
  simp only [is_downloads, pyIn, hasInteriorDownloadsSeg]
  simpa [sep] using h

/-- The shape of a normalised path accepted by `driveRooted`. -/
theorem driveRooted_shape {l : List Char} (h : driveRooted l = true) :
    ∃ c₁ rest, l = c₁ :: ':' :: sep :: rest ∧ c₁ ≠ sep ∧
      rest.head? ≠ some sep := by
  unfold driveRooted at h
  split at h
  · rename_i c₁ c₃ rest
    simp only [Bool.and_eq_true, bne_iff_ne, beq_iff_eq] at h
    obtain ⟨⟨h1, h3⟩, hr⟩ := h
    exact ⟨c₁, rest, by rw [h3], h1, hr⟩
  · exact absurd h (by simp)

/-- C4 counterexample: for the UNC path `\\\\evil\\share\\f.txt` the
root/drive component (per `ntpath.splitdrive`) is `\\\\evil\\share`, and no
segment strictly after it matches the pattern `"evil"`; yet
`has_skip_folder` returns true, because it drops only the first piece of the
separator-split of the normalised path and therefore glob-matches the UNC
server name as well.  This refutes the claimed equivalence at a concrete
input. -/
theorem has_skip_folder_counterexample :
    has_skip_folder "\\\\evil\\share\\f.txt" ["evil"] = true ∧
      matchesSkipSpec "\\\\evil\\share\\f.txt" ["evil"] = false :=
  ⟨by decide, by decide⟩

/-- C4 amended: `has_skip_folder` glob-matches, case-insensitively, every
piece of the separator-split of the normalised path except the first against
every configured pattern (empty patterns are skipped).  For paths whose
normalised form has the ordinary drive-letter-rooted shape `X:\...` this
coincides with the claim's "segments strictly after the root/drive
component"; the claim's two concrete examples hold.  (For UNC paths the code
additionally matches the server and share names, and for relative paths it
skips the first folder — see the counterexample.) -/
theorem has_skip_folder_amended :
    (∀ (p : String) (pats : List String), (∀ q ∈ pats, q ≠ "") →
      driveRooted (normpathL p.data) = true →
      has_skip_folder p pats = matchesSkipSpec p pats) ∧
    has_skip_folder "/a/node_modules/b/file.txt" ["node_modules"] = true ∧
    has_skip_folder "/a/nodeModules/file.txt" ["node_modules"] = false := by
  refine ⟨fun p pats hq hd => ?_, by decide, by decide⟩
  obtain ⟨c₁, rest, hn, h1, hr⟩ := driveRooted_shape hd
  have hsplit : splitSep (normpathL p.data) = [c₁, ':'] :: splitSep rest := by
    rw [hn]
    simp [splitSep, h1, show (':' : Char) ≠ sep from by decide]
  have hsd : (splitdrive (normpathL p.data)).2 = sep :: rest := by
    rw [hn]
    simp [splitdrive]
  have hls : lstripSep (sep :: rest) = rest := by
    simp [lstripSep, lstripSep_no_sep hr]
  have hfun :
      (fun part => pats.any (fun pat =>
          pat ≠ "" && fnmatchcase (pyLower part) (pyLower pat)))
        = (fun part => pats.any (fun pat =>
            fnmatchcase (pyLower part) (pyLower pat))) :=
    funext (fun part => any_nonempty_filter hq _)
  simp only [has_skip_folder, matchesSkipSpec, segsAfterRoot, splitPath]
  rw [show (normpath p).data = normpathL p.data from rfl, hsplit, hsd, hls,
    hfun]
  simp

/-- Witness for C4's amended claim at a drive-letter-rooted path. -/
theorem has_skip_folder_amended_witness :
    (∀ q ∈ (["node_modules"] : List String), q ≠ "") ∧
    driveRooted (normpathL ("C:\\repo\\node_modules\\f.txt" : String).data)
      = true ∧
    has_skip_folder "C:\\repo\\node_modules\\f.txt" ["node_modules"] =
      matchesSkipSpec "C:\\repo\\node_modules\\f.txt" ["node_modules"] :=
  ⟨by decide, by decide,
    has_skip_folder_amended.1 "C:\\repo\\node_modules\\f.txt"
      ["node_modules"] (by decide) (by decide)⟩

/-! ## Example trees and executions used by the witnesses -/

/-- A readable leaf directory holding one file. -/
def exSub : FSTree := .node ["g"] false []

/-- A readable root holding one file and `exSub`. -/
def exRoot : FSTree := .node ["f"] false [exSub]

/-- A permission-denied directory that does hold a file. -/
def exDenied : FSTree := .node ["h"] true []

/-- A readable root whose only subdirectory is permission-denied. -/
def exRoot2 : FSTree := .node ["f"] false [exDenied]

/-- A readable leaf with one text file. -/
def exA : FSTree := .node ["a.txt"] false []

/-- Another readable leaf with one text file. -/
def exB : FSTree := .node ["b.txt"] false []

/-- A readable root with two subdirectories, so that schedulings can differ. -/
def exRoot3 : FSTree := .node [] false [exA, exB]

/-- C1: for every pool size `N ≥ 1` (in particular 1, 2 and 64) and every
tree of readable directories, every scheduling of `scan_all_files` that
reaches the state where `Queue.join` returns — no pending directory and no
dequeued-but-unfinished listing, which is exactly the join condition the
claim requires — has collected a permutation of the files reachable from the
roots: no duplicates and no omissions, independent of the interleaving.
Moreover no non-terminal state is stuck, so the join cannot return early or
deadlock. -/
theorem scan_all_files_complete (N : Nat) (roots : List FSTree) (s : WalkState)
    (hN : 1 ≤ N) (hroots : allReadableList roots = true)
    (hreach : Relation.ReflTransGen (WalkStep N) (WalkState.init roots) s)
    (hterm : s.Terminal) :
    s.found.Perm (allFilesList roots) ∧
      (∀ s' : WalkState, ¬ s'.Terminal → ∃ s'', WalkStep N s' s'') := by
  constructor
  · have h := walk_terminal_perm hreach hterm
    rwa [accessFilesList_of_allReadableList roots hroots] at h
  · exact fun s' h => walk_progress hN s' h

/-- Witness for C1: a two-directory tree, pool size 1, and an explicit
four-step scheduling reaching the join condition with both files found. -/
theorem scan_all_files_complete_witness :
    (WalkState.found ⟨[], [], ["f", "g"]⟩).Perm (allFilesList [exRoot]) ∧
      (∀ s' : WalkState, ¬ s'.Terminal → ∃ s'', WalkStep 1 s' s'') :=
  scan_all_files_complete 1 [exRoot] ⟨[], [], ["f", "g"]⟩ (by decide)
    (by rfl)
    (Relation.ReflTransGen.head
      (WalkStep.dequeue [] [] [] exRoot [] (by decide))
      (Relation.ReflTransGen.head
        (WalkStep.complete [] [] [] exRoot [])
        (Relation.ReflTransGen.head
          (WalkStep.dequeue [] [] [] exSub ["f"] (by decide))
          (Relation.ReflTransGen.head
            (WalkStep.complete [] [] [] exSub ["f"])
            Relation.ReflTransGen.refl))))
    ⟨rfl, rfl⟩

/-- C6 counterexample: the worker's `except` clause catches only
`PermissionError`; a listing that raises any other error — e.g. the
`FileNotFoundError` of a missing directory — is not treated as zero
children: the exception propagates out of the handler and terminates that
worker thread, refuting "for every directory whose listing raises any
error, the walker catches the error ... no worker thread crashes". -/
theorem worker_catch_counterexample :
    workerHandle (.err .fileNotFoundError) =
        WorkerFate.crashed .fileNotFoundError ∧
      workerHandle (.err .fileNotFoundError) ≠ WorkerFate.continues [] [] :=
  ⟨rfl, fun h => WorkerFate.noConfusion h⟩

/-- C6 amended: the worker catches `PermissionError` alone, treating that
directory as having zero children, and the pool then still collects exactly
the files reachable through accessible directories — permission-denied
subtrees contribute nothing, no worker crashes, and the scan completes for
everything else.  Listing errors other than `PermissionError` are not caught
(see the counterexample). -/
theorem walker_permission_amended :
    workerHandle (.err .permissionError) = WorkerFate.continues [] [] ∧
      (∀ (N : Nat) (roots : List FSTree) (s : WalkState),
        Relation.ReflTransGen (WalkStep N) (WalkState.init roots) s →
        s.Terminal → s.found.Perm (accessFilesList roots)) :=
  ⟨rfl, fun _ _ _ h ht => walk_terminal_perm h ht⟩

/-- Witness for C6's amended claim: a scheduling over a tree whose only
subdirectory is permission-denied; the denied directory's file `"h"` is not
collected, the root's file `"f"` is. -/
theorem walker_permission_amended_witness :
    (WalkState.found ⟨[], [], ["f"]⟩).Perm (accessFilesList [exRoot2]) :=
  walker_permission_amended.2 1 [exRoot2] ⟨[], [], ["f"]⟩
    (Relation.ReflTransGen.head
      (WalkStep.dequeue [] [] [] exRoot2 [] (by decide))
      (Relation.ReflTransGen.head
        (WalkStep.complete [] [] [] exRoot2 [])
        (Relation.ReflTransGen.head
          (WalkStep.dequeue [] [] [] exDenied ["f"] (by decide))
          (Relation.ReflTransGen.head
            (WalkStep.complete [] [] [] exDenied ["f"])
            Relation.ReflTransGen.refl))))
    ⟨rfl, rfl⟩

/-- C8: the filtered scan output is scheduling-independent in membership:
any two terminating pool executions over the same tree — with any pool
sizes — yield found lists whose filtered record lists are permutations of
each other, so the result set depends only on the filesystem tree and the
filter configuration. -/
theorem scan_result_deterministic (N₁ N₂ : Nat) (roots : List FSTree)
    (s₁ s₂ : WalkState) (scan_mode : String) (settings : ScanSettings)
    (h₁ : Relation.ReflTransGen (WalkStep N₁) (WalkState.init roots) s₁)
    (ht₁ : s₁.Terminal)
    (h₂ : Relation.ReflTransGen (WalkStep N₂) (WalkState.init roots) s₂)
    (ht₂ : s₂.Terminal) :
    (apply_additional_filters (get_files_by_scan_mode s₁.found scan_mode)
        scan_mode settings).Perm
      (apply_additional_filters (get_files_by_scan_mode s₂.found scan_mode)
        scan_mode settings) := by
  have hp : s₁.found.Perm s₂.found :=
    (walk_terminal_perm h₁ ht₁).trans (walk_terminal_perm h₂ ht₂).symm
  rw [get_files_eq_filter, get_files_eq_filter,
    apply_additional_filters_eq, apply_additional_filters_eq]
  exact ((hp.filter _).filter _).map _

/-- Witness for C8: two schedulings of the same two-subdirectory tree that
complete the subdirectories in opposite orders, producing the found lists
`["a.txt", "b.txt"]` and `["b.txt", "a.txt"]`. -/
theorem scan_result_deterministic_witness :
    (apply_additional_filters
        (get_files_by_scan_mode
          (WalkState.found ⟨[], [], ["a.txt", "b.txt"]⟩) "text")
        "text" ⟨[], false⟩).Perm
      (apply_additional_filters
        (get_files_by_scan_mode
          (WalkState.found ⟨[], [], ["b.txt", "a.txt"]⟩) "text")
        "text" ⟨[], false⟩) :=
  scan_result_deterministic 2 2 [exRoot3] ⟨[], [], ["a.txt", "b.txt"]⟩
    ⟨[], [], ["b.txt", "a.txt"]⟩ "text" ⟨[], false⟩
    (Relation.ReflTransGen.head
      (WalkStep.dequeue [] [] [] exRoot3 [] (by decide))
      (Relation.ReflTransGen.head
        (WalkStep.complete [] [] [] exRoot3 [])
        (Relation.ReflTransGen.head
          (WalkStep.dequeue [] [exB] [] exA [] (by decide))
          (Relation.ReflTransGen.head
            (WalkStep.complete [exB] [] [] exA [])
            (Relation.ReflTransGen.head
              (WalkStep.dequeue [] [] [] exB ["a.txt"] (by decide))
              (Relation.ReflTransGen.head
                (WalkStep.complete [] [] [] exB ["a.txt"])
                Relation.ReflTransGen.refl))))))
    ⟨rfl, rfl⟩
    (Relation.ReflTransGen.head
      (WalkStep.dequeue [] [] [] exRoot3 [] (by decide))
      (Relation.ReflTransGen.head
        (WalkStep.complete [] [] [] exRoot3 [])
        (Relation.ReflTransGen.head
          (WalkStep.dequeue [exA] [] [] exB [] (by decide))
          (Relation.ReflTransGen.head
            (WalkStep.complete [exA] [] [] exB [])
            (Relation.ReflTransGen.head
              (WalkStep.dequeue [] [] [] exA ["b.txt"] (by decide))
              (Relation.ReflTransGen.head
                (WalkStep.complete [] [] [] exA ["b.txt"])
                Relation.ReflTransGen.refl))))))
    ⟨rfl, rfl⟩

/-- C7 counterexample: when writing the result file fails, the scan thread
dies with the unhandled exception — the run aborts, but the emitted event
trace contains only the four pre-failure milestones; no status or progress
call reports the failure, contradicting "a scan-level error is reported to
the caller (via the progress/status sink)". -/
theorem save_failure_counterexample :
    (run_scraper_model ["a.txt"] "text" ⟨[], false⟩ false).2 = true ∧
      (run_scraper_model ["a.txt"] "text" ⟨[], false⟩ false).1 =
        [.status "Preparing scan directories...", .progress 25,
         .status "Found 1 files for text scan.", .progress 50] :=
  ⟨rfl, by decide⟩

/-- C7 amended: a failing result-file write aborts the scan — nothing after
the 50% milestone (completion status, 100% progress, backup enabling) is
emitted, the failing trace being exactly the first four events of the
successful trace — but no error of any kind is reported through the
progress/status sink; a successful write is the only non-aborting case. -/
theorem save_failure_amended (all_files : List String) (scan_mode : String)
    (settings : ScanSettings) :
    (run_scraper_model all_files scan_mode settings false).2 = true ∧
      (run_scraper_model all_files scan_mode settings true).2 = false ∧
      (run_scraper_model all_files scan_mode settings false).1 =
        (run_scraper_model all_files scan_mode settings true).1.take 4 := by
  refine ⟨rfl, rfl, ?_⟩
  rfl

end WinSetup
